import Mathlib

/-!
Verification development for the gfx-rs runtime core: the reference-counted
handle manager (`src/core/src/handle.rs`) and the OpenGL backend command
queue (`src/backend/gl/src/lib.rs`): state cache, command processing, draw
fallbacks, submission pipeline, error checking, and the soft resource cap.

Machine integers of the source (GLuint, GLsizei, usize) are modelled as
`Nat` (base vertices, which are `GLint`, as `Int`); none of the verified
properties involve wrap-around.  Floating-point viewport/scissor/depth-range
payloads are not modelled: only which native entry point is invoked, and
with which integral parameters, matters to the properties below.
-/

/-! ## Handle manager (`src/core/src/handle.rs`)

A `Manager` owns, per resource kind, a `Vec<Arc<_>>` of pooled entries.
We model one pool as a `List Nat` of resource identifiers together with a
function `ext : Nat → Nat` giving, for each identifier, the number of
`Arc` clones held *outside* this pool (handles returned by `make_*`,
clones pushed by `ref_*` / `extend` into other managers).  The strong
count of a pooled entry, as seen by `Arc::get_mut`, is then
`pool.count x + ext x`; `Arc::get_mut` succeeds exactly when it is 1. -/

/-- Rust `Vec::swap_remove(i)`: overwrite position `i` with the last
element, then pop the last element.  (Total: identity on the empty list;
it is only ever invoked with `i < l.length`.) -/
def swap_remove (l : List Nat) (i : Nat) : List Nat :=
  match l.getLast? with
  | none => l
  | some a => (l.set i a).dropLast

/-- The success condition of `Arc::get_mut(v)` for a pooled entry holding
resource `x`: the pool slot is the sole remaining strong reference, i.e.
`x` occurs exactly once in the pool and has no external clones. -/
def destroyable (ext : Nat → Nat) (pool : List Nat) (x : Nat) : Bool :=
  pool.count x == 1 && ext x == 0

/-- First pass of `clean_vec`: walk the vector, call the destroy callback
on every entry whose `Arc::get_mut` succeeds, and record its index.
This is the list `temp` of the source. -/
def clean_temp (ext : Nat → Nat) (pool : List Nat) : List Nat :=
  (List.range pool.length).filter (fun i => destroyable ext pool (pool.getD i 0))

/-- The resources on which the destroy callback fires during `clean_vec`,
in iteration order. -/
def clean_destroyed (ext : Nat → Nat) (pool : List Nat) : List Nat :=
  (clean_temp ext pool).map (fun i => pool.getD i 0)

/-- Second pass of `clean_vec`: remove the recorded indices by
`swap_remove`, starting from the last one. -/
def clean_pool (ext : Nat → Nat) (pool : List Nat) : List Nat :=
  (clean_temp ext pool).reverse.foldl swap_remove pool

/-- State of one pool of a `Manager` plus the log of destroy-callback
invocations (`destroyed`, in order of invocation). -/
structure MState where
  pool : List Nat
  ext : Nat → Nat
  destroyed : List Nat

/-- A fresh `Manager::new()`: empty pool, no external handles, no destroy
callback ever invoked. -/
def MState.init : MState := ⟨[], fun _ => 0, []⟩

/-- Total strong reference count of resource `x`: pool occurrences plus
external handles. -/
def refCount (s : MState) (x : Nat) : Nat := s.pool.count x + s.ext x

/-- Client-visible operations on a manager: `make i` (a `make_*` call,
pooling a fresh resource and returning one handle), `ref i` (a
`ref_*` / `extend` clone of a live handle into another tracking set),
`drop i` (release of one external handle / `clear` of one clone), and
`sweep` (`clean_with`). -/
inductive Op where
  | make (i : Nat)
  | ref (i : Nat)
  | drop (i : Nat)
  | sweep
  deriving DecidableEq

/-- One step of the manager model.  `make` pushes the entry and hands one
handle to the caller; `ref`/`drop` adjust the external count; `sweep` runs
`clean_with` on the pool, appending the fired callbacks to the log. -/
def step (s : MState) : Op → MState
  | .make i => ⟨s.pool ++ [i], Function.update s.ext i (s.ext i + 1), s.destroyed⟩
  | .ref i  => ⟨s.pool, Function.update s.ext i (s.ext i + 1), s.destroyed⟩
  | .drop i => ⟨s.pool, Function.update s.ext i (s.ext i - 1), s.destroyed⟩
  | .sweep  => ⟨clean_pool s.ext s.pool, s.ext,
                s.destroyed ++ clean_destroyed s.ext s.pool⟩

/-- Operation validity: `make` requires a fresh identifier (Rust allocates
a new `Arc`, so a resource never re-enters a pool after destruction),
`ref`/`drop` require a live external handle to clone or release. -/
def valid_op (s : MState) : Op → Bool
  | .make i => decide (s.pool.count i = 0) && (s.ext i == 0) && decide (i ∉ s.destroyed)
  | .ref i  => decide (1 ≤ s.ext i)
  | .drop i => decide (1 ≤ s.ext i)
  | .sweep  => true

/-- Validity of an interleaving of operations from a given state. -/
def valid_seq (s : MState) : List Op → Bool
  | [] => true
  | op :: ops => valid_op s op && valid_seq (step s op) ops

/-- Run an interleaving of operations. -/
def run (s : MState) (ops : List Op) : MState :=
  ops.foldl step s

/-- The invariant tying the destroy log to the pool: no callback fired
twice, and a destroyed resource has left the pool for good with no
external handles left. -/
def ManagerInv (s : MState) : Prop :=
  s.destroyed.Nodup ∧ ∀ x ∈ s.destroyed, s.pool.count x = 0 ∧ s.ext x = 0

/-! ## GL backend: feature table and capabilities -/

/-- The draw-related entries of the detected feature table
(`core::Features`), as consumed by `CommandQueue::process`. -/
structure Features where
  draw_instanced : Bool
  draw_instanced_base : Bool
  draw_indexed_instanced_base : Bool
  draw_indexed_instanced_base_vertex : Bool
  draw_indexed_instanced : Bool
  draw_indexed_base : Bool
  deriving DecidableEq

/-- The entries of `info::PrivateCaps` consumed by the command queue. -/
structure PrivateCaps where
  array_buffer_supported : Bool
  buffer_storage_supported : Bool
  sync_supported : Bool
  deriving DecidableEq

/-- GL constant `ELEMENT_ARRAY_BUFFER`. -/
def glELEMENT_ARRAY_BUFFER : Nat := 0x8893
/-- GL constant `DRAW_INDIRECT_BUFFER`. -/
def glDRAW_INDIRECT_BUFFER : Nat := 0x8F3F

/-- Native driver calls issued by the command queue.  Float payloads
(viewport rectangles, depth ranges, scissor rectangles) are elided; the
entry point and the integral parameters are kept. -/
inductive NativeCall where
  | bindVertexArray (vao : Nat)
  | bindBuffer (target : Nat) (buffer : Nat)
  | viewport
  | depthRange
  | viewportArrayv (n : Nat)
  | depthRangeArrayv (n : Nat)
  | scissor
  | scissorArrayv (n : Nat)
  | drawArrays (primitive start count : Nat)
  | drawArraysInstanced (primitive start count num : Nat)
  | drawArraysInstancedBaseInstance (primitive start count num base : Nat)
  | drawElements (primitive count index_type start : Nat)
  | drawElementsBaseVertex (primitive count index_type start : Nat) (base_vertex : Int)
  | drawElementsInstanced (primitive count index_type start num : Nat)
  | drawElementsInstancedBaseVertex (primitive count index_type start num : Nat) (base_vertex : Int)
  | drawElementsInstancedBaseVertexBaseInstance
      (primitive count index_type start num : Nat) (base_vertex : Int) (base_instance : Nat)
  | dispatchCompute (x y z : Nat)
  | dispatchComputeIndirect (offset : Nat)
  deriving DecidableEq

/-- The distinct `error!` log sites of `CommandQueue::process` draw arms. -/
inductive LogError where
  | instancedBaseNotSupported
  | instancedNotSupported
  | indexedInstancedBaseNotSupported
  | indexedBaseVertexInstancedNotSupported
  | indexedInstancedNotSupported
  | indexedBaseVertexNotSupported
  deriving DecidableEq

/-! ## GL backend: command queue state cache -/

/-- The shadow `State` of the command queue: whether the private VAO is
known bound, the currently bound index buffer (`none` = unknown), and the
currently set viewport/scissor counts. -/
structure State where
  vao : Bool
  index_buffer : Option Nat
  num_viewports : Nat
  num_scissors : Nat
  deriving DecidableEq

/-- Rust `State::new()`: initial context state as exposed by OpenGL. -/
def State.new : State := ⟨false, none, 0, 0⟩

/-- Rust `State::flush()`: invalidate the cache after uncontrolled raw GL
calls.  The viewport/scissor counts are knowingly left as they are (the
source carries a TODO for them). -/
def State.flush (s : State) : State :=
  { s with vao := false, index_buffer := none }

/-- The viewport-reset calls of `reset_state`, driven by the recorded
viewport count: single-entry path for count 1, array path for counts
above 1, nothing for count 0. -/
def viewportResetCalls (n : Nat) : List NativeCall :=
  if n = 1 then [.viewport, .depthRange]
  else if n > 1 then [.viewportArrayv n, .depthRangeArrayv n]
  else []

/-- The scissor-reset calls of `reset_state`, driven by the recorded
scissor count. -/
def scissorResetCalls (n : Nat) : List NativeCall :=
  if n = 1 then [.scissor]
  else if n > 1 then [.scissorArrayv n]
  else []

/-- Rust `CommandQueue::reset_state`: bind the private default VAO if not
marked bound (native call only when VAOs are supported), bind "no index
buffer" unless known to be 0, then neutral-reset the recorded viewports
and scissors.  Returns the new shadow state and the issued native calls. -/
def reset_state (caps : PrivateCaps) (vao : Nat) (s : State) : State × List NativeCall :=
  let p1 := if s.vao = false then
      ({ s with vao := true },
       if caps.array_buffer_supported then [NativeCall.bindVertexArray vao] else [])
    else (s, [])
  let s1 := p1.1
  let p2 := match s1.index_buffer with
    | some 0 => (s1, ([] : List NativeCall))
    | _ => ({ s1 with index_buffer := some 0 }, [NativeCall.bindBuffer glELEMENT_ARRAY_BUFFER 0])
  let s2 := p2.1
  (s2, p1.2 ++ p2.2 ++ viewportResetCalls s2.num_viewports ++ scissorResetCalls s2.num_scissors)

/-! ## GL backend: command processing -/

/-- The portable commands of `command::Command` interpreted by
`CommandQueue::process`.  Viewport/scissor data blocks are modelled by
their entry count (the payload is floating-point and does not affect
which native call is selected); `BindVertexBuffers` is `unimplemented!()`
in the source and is omitted. -/
inductive Command where
  | bindIndexBuffer (buffer : Nat)
  | draw (primitive start count : Nat) (instances : Option (Nat × Nat))
  | drawIndexed (primitive index_type start count : Nat) (base_vertex : Int)
      (instances : Option (Nat × Nat))
  | dispatch (x y z : Nat)
  | dispatchIndirect (buffer : Nat) (offset : Nat)
  | setViewports (num_viewports : Nat)
  | setScissors (num_scissors : Nat)
  deriving DecidableEq

/-- The `Command::Draw` arm of `CommandQueue::process`: native calls
issued and errors logged. -/
def process_draw (f : Features) (primitive start count : Nat)
    (instances : Option (Nat × Nat)) : List NativeCall × List LogError :=
  match instances with
  | some (num, base) =>
    if f.draw_instanced then
      if f.draw_instanced_base then
        ([.drawArraysInstancedBaseInstance primitive start count num base], [])
      else if base = 0 then
        ([.drawArraysInstanced primitive start count num], [])
      else
        ([], [.instancedBaseNotSupported])
    else
      ([], [.instancedNotSupported])
  | none => ([.drawArrays primitive start count], [])

/-- The `Command::DrawIndexed` arm of `CommandQueue::process`. -/
def process_draw_indexed (f : Features) (primitive index_type start count : Nat)
    (base_vertex : Int) (instances : Option (Nat × Nat)) : List NativeCall × List LogError :=
  match instances with
  | some (num, base_instance) =>
    if f.draw_indexed_instanced_base then
      ([.drawElementsInstancedBaseVertexBaseInstance
          primitive count index_type start num base_vertex base_instance], [])
    else if base_instance ≠ 0 then
      ([], [.indexedInstancedBaseNotSupported])
    else if f.draw_indexed_instanced_base_vertex then
      ([.drawElementsInstancedBaseVertex primitive count index_type start num base_vertex], [])
    else if base_vertex ≠ 0 then
      ([], [.indexedBaseVertexInstancedNotSupported])
    else if f.draw_indexed_instanced then
      ([.drawElementsInstanced primitive count index_type start num], [])
    else
      ([], [.indexedInstancedNotSupported])
  | none =>
    if f.draw_indexed_base then
      ([.drawElementsBaseVertex primitive count index_type start base_vertex], [])
    else if base_vertex = 0 then
      ([.drawElements primitive count index_type start], [])
    else
      ([], [.indexedBaseVertexNotSupported])

/-- Rust `CommandQueue::process` (the match on the command), returning the
updated shadow state, the native calls issued, and the errors logged.
Note that the `SetViewports` / `SetScissors` arms do not write to the
shadow state in the source. -/
def process (f : Features) (s : State) (cmd : Command) :
    State × List NativeCall × List LogError :=
  match cmd with
  | .bindIndexBuffer buffer =>
    ({ s with index_buffer := some buffer },
     [.bindBuffer glELEMENT_ARRAY_BUFFER buffer], [])
  | .draw p st c inst => (s, process_draw f p st c inst)
  | .drawIndexed p it st c bv inst => (s, process_draw_indexed f p it st c bv inst)
  | .dispatch x y z => (s, [.dispatchCompute x y z], [])
  | .dispatchIndirect b off =>
    (s, [.bindBuffer glDRAW_INDIRECT_BUFFER b, .dispatchComputeIndirect off], [])
  | .setViewports n =>
    (s, (if n = 1 then [.viewport, .depthRange]
         else if n > 1 then [.viewportArrayv n, .depthRangeArrayv n]
         else []), [])
  | .setScissors n =>
    (s, (if n = 1 then [.scissor] else [.scissorArrayv n]), [])

/-- The operations that touch the queue's shadow `State` in the source:
command processing, `reset_state`, and `State::flush` (performed by
`with_gl`).  `State::new` is the only constructor, so the reachable
shadow states are exactly those produced by running these. -/
inductive GlOp where
  | procCmd (f : Features) (cmd : Command)
  | reset (caps : PrivateCaps) (vao : Nat)
  | flush

/-- The effect of one state-cache operation on the shadow state. -/
def glStep (s : State) : GlOp → State
  | .procCmd f cmd => (process f s cmd).1
  | .reset caps vao => (reset_state caps vao s).1
  | .flush => State.flush s

/-- Run a history of state-cache operations from a given shadow state. -/
def glRun (s : State) (ops : List GlOp) : State := ops.foldl glStep s

/-! ## GL backend: indexed-draw fallback order as specified

The specification describes indexed-draw dispatch as picking the first
entry point, in a strict fallback order, that the feature table supports
and that honors the requested base vertex / base instance, logging an
error and issuing no call when none qualifies.  These definitions follow
the specification's words; the refinement theorem compares them with
`process_draw_indexed`, which is translated from the source. -/

/-- The indexed-draw native entry points of the specification's fallback
list. -/
inductive IndexedEntry where
  | instancedBaseVertexBaseInstance
  | instancedBaseVertex
  | plainInstanced
  | baseVertex
  | plain
  deriving DecidableEq

/-- Which feature flag makes an entry point available. -/
def entrySupported (f : Features) : IndexedEntry → Bool
  | .instancedBaseVertexBaseInstance => f.draw_indexed_instanced_base
  | .instancedBaseVertex => f.draw_indexed_instanced_base_vertex
  | .plainInstanced => f.draw_indexed_instanced
  | .baseVertex => f.draw_indexed_base
  | .plain => true

/-- Whether an entry point honors the requested base vertex and base
instance without silently dropping a nonzero offset. -/
def entryHonors (base_vertex : Int) (base_instance : Nat) : IndexedEntry → Bool
  | .instancedBaseVertexBaseInstance => true
  | .instancedBaseVertex => base_instance == 0
  | .plainInstanced => base_instance == 0 && base_vertex == 0
  | .baseVertex => base_instance == 0
  | .plain => base_instance == 0 && base_vertex == 0

/-- The specification's strict fallback order, for instanced and plain
indexed draws. -/
def fallbackOrder (instanced : Bool) : List IndexedEntry :=
  if instanced then [.instancedBaseVertexBaseInstance, .instancedBaseVertex, .plainInstanced]
  else [.baseVertex, .plain]

/-- Specification-side selection: the first supported entry point, in
fallback order, that honors the request. -/
def selectIndexedEntry (f : Features) (instanced : Bool) (base_vertex : Int)
    (base_instance : Nat) : Option IndexedEntry :=
  (fallbackOrder instanced).find? (fun e =>
    entrySupported f e && entryHonors base_vertex base_instance e)

/-- The native call corresponding to an entry point at the given draw
parameters. -/
def entryCall (primitive index_type start count num : Nat) (base_vertex : Int)
    (base_instance : Nat) : IndexedEntry → NativeCall
  | .instancedBaseVertexBaseInstance =>
    .drawElementsInstancedBaseVertexBaseInstance primitive count index_type start num
      base_vertex base_instance
  | .instancedBaseVertex =>
    .drawElementsInstancedBaseVertex primitive count index_type start num base_vertex
  | .plainInstanced => .drawElementsInstanced primitive count index_type start num
  | .baseVertex => .drawElementsBaseVertex primitive count index_type start base_vertex
  | .plain => .drawElements primitive count index_type start

/-! ## GL backend: error checking (`Share::check`) -/

/-- The decoded hardware error kinds of `gl::Error`. -/
inductive GlError where
  | noError
  | invalidEnum
  | invalidValue
  | invalidOperation
  | invalidFramebufferOperation
  | outOfMemory
  | unknownError
  deriving DecidableEq

/-- GL constant `NO_ERROR`. -/
def glNO_ERROR : Nat := 0
/-- GL constant `INVALID_ENUM`. -/
def glINVALID_ENUM : Nat := 0x0500
/-- GL constant `INVALID_VALUE`. -/
def glINVALID_VALUE : Nat := 0x0501
/-- GL constant `INVALID_OPERATION`. -/
def glINVALID_OPERATION : Nat := 0x0502
/-- GL constant `OUT_OF_MEMORY`. -/
def glOUT_OF_MEMORY : Nat := 0x0505
/-- GL constant `INVALID_FRAMEBUFFER_OPERATION`. -/
def glINVALID_FRAMEBUFFER_OPERATION : Nat := 0x0506

/-- The error codes with a dedicated decoding in `Error::from_error_code`. -/
def knownErrorCodes : List Nat :=
  [glNO_ERROR, glINVALID_ENUM, glINVALID_VALUE, glINVALID_OPERATION,
   glINVALID_FRAMEBUFFER_OPERATION, glOUT_OF_MEMORY]

/-- Rust `Error::from_error_code`: decode a raw `GetError` result;
anything unrecognised decodes to `UnknownError`. -/
def from_error_code (code : Nat) : GlError :=
  if code = glNO_ERROR then .noError
  else if code = glINVALID_ENUM then .invalidEnum
  else if code = glINVALID_VALUE then .invalidValue
  else if code = glINVALID_OPERATION then .invalidOperation
  else if code = glINVALID_FRAMEBUFFER_OPERATION then .invalidFramebufferOperation
  else if code = glOUT_OF_MEMORY then .outOfMemory
  else .unknownError

/-- Rust `Share::check`: in debug builds (`cfg!(debug_assertions)`,
modelled as the `debug` parameter) query the error flag (`code` is the
`GetError` result) and fail on anything but no-error; in non-debug builds
always succeed. -/
def share_check (debug : Bool) (code : Nat) : Except GlError Unit :=
  if debug then
    let err := from_error_code code
    if err ≠ GlError.noError then .error err else .ok ()
  else .ok ()

/-- The tail of `CommandQueue::process`: after executing the command,
`share.check()` is consulted and a failure aborts the submission
(`panic!`), surfacing the decoded error kind and the offending command. -/
def process_checked (debug : Bool) (f : Features) (s : State) (cmd : Command)
    (code : Nat) : Except (GlError × Command) (State × List NativeCall × List LogError) :=
  match share_check debug code with
  | .error err => .error (err, cmd)
  | .ok _ => .ok (process f s cmd)

/-! ## GL backend: submission pipeline (`submit_raw`) -/

/-- One entry of the access guard taken before submission: a buffer with
an active mapping, whether the batch reads / writes it, and whether the
mapping's pending writes have already been flushed.

Modelled from the spec: `core::command::AccessInfo` / `AccessGuard` and
`MappingStatus` are not part of the sources at hand; the spec describes
the guard as "a transient enumeration, taken immediately before
submission, of every buffer Resource with an active Mapping touched by
the commands about to execute". -/
structure MappedAccess where
  buffer : Nat
  read : Bool
  write : Bool
  flushed : Bool
  deriving DecidableEq

/-- Whether any guarded mapping is read. -/
def anyRead (acc : List MappedAccess) : Bool := acc.any (·.read)
/-- Whether any guarded mapping is written. -/
def anyWrite (acc : List MappedAccess) : Bool := acc.any (·.write)

/-- The externally observable events of one `submit_raw` call, in order. -/
inductive SubmitEvent where
  | flushMapping (buffer : Nat)
  | unmapMapping (buffer : Nat)
  | resetStateEvent
  | processCommand (cmd : Command)
  | memoryBarrier
  | placeFence
  | signalExternalFence
  deriving DecidableEq

/-- Rust `CommandQueue::before_submit`: with `buffer_storage_supported`
(persistent mappings), `ensure_mappings_flushed` walks the mapped reads
and flushes each one; otherwise `ensure_mappings_unmapped` unmaps every
mapped access outright.

Modelled from the spec for the mapping-status part:
`MappingStatus::ensure_flushed` (in the device module, not among the
sources at hand) issues the coherence call only for a mapping with
pending (unflushed) writes — "flush every Persistent mapping with pending
writes (one coherence call per buffer)". -/
def before_submit (caps : PrivateCaps) (acc : List MappedAccess) : List SubmitEvent :=
  if caps.buffer_storage_supported then
    (acc.filter (·.read)).filterMap (fun a =>
      if a.flushed then none else some (.flushMapping a.buffer))
  else
    acc.map (fun a => .unmapMapping a.buffer)

/-- Rust `CommandQueue::after_submit`: only when the backend supports
persistent mappings, and some mapping was read or written, place a memory
barrier (writes only) and then one fence. -/
def after_submit (caps : PrivateCaps) (acc : List MappedAccess) : List SubmitEvent :=
  if caps.buffer_storage_supported && (anyRead acc || anyWrite acc) then
    (if anyWrite acc then [SubmitEvent.memoryBarrier] else []) ++ [SubmitEvent.placeFence]
  else []

/-- Rust `CommandQueue::signal_fence` on the caller-supplied fence: only
re-signals when sync objects are supported. -/
def signal_fence_events (caps : PrivateCaps) (external_fence : Bool) : List SubmitEvent :=
  if external_fence && caps.sync_supported then [SubmitEvent.signalExternalFence] else []

/-- The per-command-buffer replay loop of `submit_raw`: `reset_state`,
then `process` every recorded command in order. -/
def command_events (cbs : List (List Command)) : List SubmitEvent :=
  cbs.flatMap (fun cb => SubmitEvent.resetStateEvent :: cb.map SubmitEvent.processCommand)

/-- Rust `CommandQueue::submit_raw` as an event trace: `before_submit`,
the replay of every command buffer, `after_submit`, then the optional
external-fence re-signal. -/
def submit_raw (caps : PrivateCaps) (acc : List MappedAccess)
    (cbs : List (List Command)) (external_fence : Bool) : List SubmitEvent :=
  before_submit caps acc ++ command_events cbs ++ after_submit caps acc
    ++ signal_fence_events caps external_fence

/-- Phase rank of a submit event; `submit_raw` traces are monotone in it. -/
def eventRank : SubmitEvent → Nat
  | .flushMapping _ => 0
  | .unmapMapping _ => 0
  | .resetStateEvent => 1
  | .processCommand _ => 1
  | .memoryBarrier => 2
  | .placeFence => 3
  | .signalExternalFence => 4

/-! ## GL backend: soft resource cap (`pin_submitted_resources`) -/

/-- The cap-relevant state of the command queue: `max_resource_count`
(`none` once disabled) and the current `frame_handles.count()`. -/
structure PinState where
  max_resource_count : Option Nat
  frame_count : Nat
  deriving DecidableEq

/-- Rust `CommandQueue::pin_submitted_resources`: extend the frame handle
set by `m` references, then, if a cap is armed and exceeded, log the
over-cap error (the returned `Bool`) and permanently disable the cap. -/
def pin_submitted_resources (s : PinState) (m : Nat) : PinState × Bool :=
  let cnt := s.frame_count + m
  match s.max_resource_count with
  | some c =>
    if cnt > c then (⟨none, cnt⟩, true) else (⟨some c, cnt⟩, false)
  | none => (⟨none, cnt⟩, false)

/-- Run a sequence of `pin_submitted_resources` calls, collecting per-call
whether the over-cap error was logged. -/
def run_pins (s : PinState) : List Nat → List Bool
  | [] => []
  | m :: ms =>
    let p := pin_submitted_resources s m
    p.2 :: run_pins p.1 ms

/-- Specification-side log sequence: the first call at which the running
count exceeds the cap logs the error; every later call logs nothing. -/
def firstExceedLogs (c n0 : Nat) : List Nat → List Bool
  | [] => []
  | m :: ms =>
    if n0 + m > c then true :: ms.map (fun _ => false)
    else false :: firstExceedLogs c (n0 + m) ms

/-! # Theorems -/

/-! ## clean_vec: swap_remove arithmetic -/

/-- Replacing position `i` exchanges one occurrence of `l[i]` for one of
`a` in the occurrence counts. -/
theorem count_set (l : List Nat) (i a x : Nat) (h : i < l.length) :
    (l.set i a).count x + (if l.getD i 0 = x then 1 else 0)
      = l.count x + (if a = x then 1 else 0) := by
  induction l generalizing i with
  | nil => simp at h
  | cons b t ih =>
    cases i with
    | zero =>
      simp only [List.set_cons_zero, List.getD_cons_zero, List.count_cons]
      have hax : ((a == x) = true) ↔ a = x := beq_iff_eq
      have hbx : ((b == x) = true) ↔ b = x := beq_iff_eq
      split_ifs <;> simp_all
    | succ i =>
      have hi : i < t.length := by simpa using h
      have hih := ih i hi
      simp only [List.set_cons_succ, List.getD_cons_succ, List.count_cons]
      split_ifs at hih ⊢ <;> omega

/-- `swap_remove` at a valid index removes exactly one occurrence of the
element at that index. -/
theorem count_swap_remove (l : List Nat) (i x : Nat) (h : i < l.length) :
    (swap_remove l i).count x + (if l.getD i 0 = x then 1 else 0) = l.count x := by
  have hne : l ≠ [] := by
    intro he; rw [he] at h; simp at h
  have hd : l.dropLast ++ [l.getLast hne] = l := List.dropLast_append_getLast hne
  set a := l.getLast hne with ha
  set D := l.dropLast with hD
  have hlen : l.length = D.length + 1 := by
    rw [← hd]; simp
  have hsw : swap_remove l i = (l.set i a).dropLast := by
    unfold swap_remove
    rw [List.getLast?_eq_getLast l hne]
  rcases Nat.lt_or_ge i D.length with hiD | hiD
  · -- the replaced slot is strictly before the last one
    have hset : l.set i a = D.set i a ++ [a] := by
      rw [← hd]; exact List.set_append_left _ _ hiD
    have hgd : l.getD i 0 = D.getD i 0 := by
      rw [← hd]; exact List.getD_append _ _ _ _ hiD
    have hcnt := count_set D i a x hiD
    have hcl : l.count x = D.count x + (if a = x then 1 else 0) := by
      by_cases hax : a = x
      · subst hax; rw [← hd]; simp [List.count_append]
      · rw [← hd]; simp [List.count_append, hax, List.count_cons, Ne.symm hax]
    rw [hsw, hset, List.dropLast_concat, hgd]
    omega
  · -- the replaced slot is the last one: `set` is the identity there
    have hieq : i = D.length := by omega
    have hset : l.set i a = l := by
      rw [← hd, hieq, List.set_append_right _ _ (le_refl _)]
      simp
    have hgd : l.getD i 0 = a := by
      conv_lhs => rw [← hd, hieq]
      rw [List.getD_append_right _ _ _ _ (le_refl _)]
      simp
    have hdl : l.dropLast = D := hD.symm
    have hcl : l.count x = D.count x + (if a = x then 1 else 0) := by
      by_cases hax : a = x
      · subst hax; rw [← hd]; simp [List.count_append]
      · rw [← hd]; simp [List.count_append, hax, List.count_cons, Ne.symm hax]
    rw [hsw, hset, hdl, hgd]
    omega

/-- `swap_remove` at index `i` does not disturb positions before `i`. -/
theorem getD_swap_remove (l : List Nat) (i j : Nat) (h : i < l.length) (hj : j < i) :
    (swap_remove l i).getD j 0 = l.getD j 0 := by
  have hne : l ≠ [] := by
    intro he; rw [he] at h; simp at h
  have hd : l.dropLast ++ [l.getLast hne] = l := List.dropLast_append_getLast hne
  set a := l.getLast hne with ha
  set D := l.dropLast with hD
  have hlen : l.length = D.length + 1 := by rw [← hd]; simp
  have hsw : swap_remove l i = (l.set i a).dropLast := by
    unfold swap_remove
    rw [List.getLast?_eq_getLast l hne]
  rcases Nat.lt_or_ge i D.length with hiD | hiD
  · have hset : l.set i a = D.set i a ++ [a] := by
      rw [← hd]; exact List.set_append_left _ _ hiD
    have hjD : j < D.length := by omega
    rw [hsw, hset, List.dropLast_concat]
    have h1 : (D.set i a).getD j 0 = D.getD j 0 := by
      simp [List.getD, List.getElem?_set_ne (by omega : i ≠ j)]
    rw [h1, ← hd, List.getD_append _ _ _ _ hjD]
  · have hieq : i = D.length := by omega
    have hset : l.set i a = l := by
      rw [← hd, hieq, List.set_append_right _ _ (le_refl _)]
      simp
    have hdl : l.dropLast = D := hD.symm
    rw [hsw, hset, hdl, ← hd, List.getD_append _ _ _ _ (by omega : j < D.length)]

/-- `swap_remove` at a valid index shortens the list by one. -/
theorem length_swap_remove (l : List Nat) (i : Nat) (h : i < l.length) :
    (swap_remove l i).length = l.length - 1 := by
  have hne : l ≠ [] := by
    intro he; rw [he] at h; simp at h
  unfold swap_remove
  rw [List.getLast?_eq_getLast l hne]
  simp

/-- Folding `swap_remove` over strictly decreasing valid indices removes
exactly the elements found at those indices (count accounting). -/
theorem count_foldl_swap_remove (S : List Nat) (l : List Nat) (x : Nat)
    (hp : S.Pairwise (· > ·)) (hb : ∀ j ∈ S, j < l.length) :
    (S.foldl swap_remove l).count x + (S.map (fun i => l.getD i 0)).count x
      = l.count x := by
  induction S generalizing l with
  | nil => simp
  | cons i S ih =>
    have hi : i < l.length := hb i (by simp)
    have hgt : ∀ j ∈ S, i > j := (List.pairwise_cons.mp hp).1
    have hp' : S.Pairwise (· > ·) := (List.pairwise_cons.mp hp).2
    have hlen : (swap_remove l i).length = l.length - 1 := length_swap_remove l i hi
    have hb' : ∀ j ∈ S, j < (swap_remove l i).length := by
      intro j hj
      have := hgt j hj
      omega
    have hmap : S.map (fun j => (swap_remove l i).getD j 0)
        = S.map (fun j => l.getD j 0) := by
      apply List.map_congr_left
      intro j hj
      exact getD_swap_remove l i j hi (hgt j hj)
    have hih := ih (swap_remove l i) hp' hb'
    rw [hmap] at hih
    have hsw := count_swap_remove l i x hi
    simp only [List.foldl_cons, List.map_cons, List.count_cons]
    have hbeq : ((l.getD i 0 == x) = true) ↔ l.getD i 0 = x := beq_iff_eq
    split_ifs at hsw ⊢ <;> simp_all <;> omega

/-- The iteration indices recorded by `clean_vec` are strictly
increasing. -/
theorem clean_temp_pairwise (ext : Nat → Nat) (pool : List Nat) :
    (clean_temp ext pool).Pairwise (· < ·) :=
  (List.pairwise_lt_range _).sublist (List.filter_sublist _)

/-- Every recorded index is a valid position of the pool. -/
theorem clean_temp_lt (ext : Nat → Nat) (pool : List Nat) :
    ∀ i ∈ clean_temp ext pool, i < pool.length := by
  intro i hi
  exact List.mem_range.mp (List.mem_filter.mp hi).1

/-- Reading back a list at the positions of `range` that satisfy a
predicate on the stored value is just filtering the list. -/
theorem range_filter_getD_map (l : List Nat) (p : Nat → Bool) :
    ((List.range l.length).filter (fun i => p (l.getD i 0))).map (fun i => l.getD i 0)
      = l.filter p := by
  induction l with
  | nil => simp
  | cons a t ih =>
    have h1 : List.range (a :: t).length = 0 :: (List.range t.length).map Nat.succ := by
      simp [List.range_succ_eq_map]
    rw [h1]
    rw [List.filter_cons]
    have h2 : ((List.range t.length).map Nat.succ).filter
        (fun i => p ((a :: t).getD i 0))
        = ((List.range t.length).filter (fun i => p (t.getD i 0))).map Nat.succ := by
      rw [List.filter_map]
      rfl
    by_cases hpa : p a
    · simp only [List.getD_cons_zero, hpa, if_pos, List.map_cons, h2, List.map_map]
      rw [List.filter_cons_of_pos hpa]
      rw [← ih]
      congr 1
    · simp only [List.getD_cons_zero, hpa]
      rw [if_neg (by simp [hpa]), h2, List.map_map]
      rw [List.filter_cons_of_neg (by simp [hpa])]
      exact ih

/-- The destroy callbacks of one `clean_vec` pass fire exactly on the
pool entries whose slot is the sole remaining reference, in pool order. -/
theorem clean_destroyed_eq (ext : Nat → Nat) (pool : List Nat) :
    clean_destroyed ext pool = pool.filter (destroyable ext pool) := by
  unfold clean_destroyed clean_temp
  exact range_filter_getD_map pool (destroyable ext pool)

/-- Occurrence counts after one `clean_vec` pass: a destroyable resource
is removed outright, every other count is untouched. -/
theorem count_clean_pool (ext : Nat → Nat) (pool : List Nat) (x : Nat) :
    (clean_pool ext pool).count x
      = if destroyable ext pool x then 0 else pool.count x := by
  have hrev : (clean_temp ext pool).reverse.Pairwise (· > ·) := by
    rw [List.pairwise_reverse]
    exact clean_temp_pairwise ext pool
  have hb : ∀ j ∈ (clean_temp ext pool).reverse, j < pool.length := by
    intro j hj
    exact clean_temp_lt ext pool j (List.mem_reverse.mp hj)
  have h := count_foldl_swap_remove (clean_temp ext pool).reverse pool x hrev hb
  have hmapcnt : ((clean_temp ext pool).reverse.map (fun i => pool.getD i 0)).count x
      = (pool.filter (destroyable ext pool)).count x := by
    rw [List.map_reverse, List.count_reverse, ← clean_destroyed_eq]
    rfl
  rw [hmapcnt] at h
  unfold clean_pool
  by_cases hdx : destroyable ext pool x = true
  · have hfc : (pool.filter (destroyable ext pool)).count x = pool.count x :=
      List.count_filter hdx
    have hc1 : pool.count x = 1 := by
      unfold destroyable at hdx
      simp only [Bool.and_eq_true, beq_iff_eq] at hdx
      exact hdx.1
    rw [if_pos hdx]
    omega
  · have hfc : (pool.filter (destroyable ext pool)).count x = 0 := by
      apply List.count_eq_zero.mpr
      intro hmem
      exact hdx (List.mem_filter.mp hmem).2
    rw [if_neg hdx]
    omega

/-- After one `clean_vec` pass nothing in the surviving pool is
destroyable any more: a second pass records no indices. -/
theorem clean_temp_clean_pool (ext : Nat → Nat) (pool : List Nat) :
    clean_temp ext (clean_pool ext pool) = [] := by
  apply List.filter_eq_nil_iff.mpr
  intro i hi
  have hlen : i < (clean_pool ext pool).length := List.mem_range.mp hi
  have he : (clean_pool ext pool).getD i 0 ∈ clean_pool ext pool := by
    rw [List.getD_eq_getElem _ _ hlen]
    exact List.getElem_mem hlen
  set e := (clean_pool ext pool).getD i 0 with hee
  have hcnt : 0 < (clean_pool ext pool).count e := List.count_pos_iff.mpr he
  have h := count_clean_pool ext pool e
  by_cases hdx : destroyable ext pool e = true
  · rw [if_pos hdx] at h
    omega
  · rw [if_neg hdx] at h
    intro hcontra
    apply hdx
    unfold destroyable at hcontra ⊢
    simp only [Bool.and_eq_true, beq_iff_eq] at hcontra ⊢
    omega

/-- A second `clean_vec` pass leaves the pool exactly as it was. -/
theorem clean_pool_idem (ext : Nat → Nat) (pool : List Nat) :
    clean_pool ext (clean_pool ext pool) = clean_pool ext pool := by
  show (clean_temp ext (clean_pool ext pool)).reverse.foldl swap_remove (clean_pool ext pool)
      = clean_pool ext pool
  rw [clean_temp_clean_pool]
  rfl

/-- A second `clean_vec` pass fires no destroy callback. -/
theorem clean_destroyed_clean_pool (ext : Nat → Nat) (pool : List Nat) :
    clean_destroyed ext (clean_pool ext pool) = [] := by
  unfold clean_destroyed
  rw [clean_temp_clean_pool]
  rfl

/-- C9: for every Handle Manager state, running the sweep (`clean_with`)
twice in a row with no references created or dropped in between invokes
zero destroy callbacks on the second run (the destroy log does not grow)
and the second run leaves the pool exactly unchanged. -/
theorem sweep_twice_second_noop (s : MState) :
    (step (step s Op.sweep) Op.sweep).destroyed = (step s Op.sweep).destroyed ∧
    (step (step s Op.sweep) Op.sweep).pool = (step s Op.sweep).pool := by
  constructor
  · show (step s Op.sweep).destroyed ++ clean_destroyed s.ext (clean_pool s.ext s.pool)
        = (step s Op.sweep).destroyed
    rw [clean_destroyed_clean_pool]
    simp
  · exact clean_pool_idem s.ext s.pool

/-- No resource is destroyed twice within one sweep: the fired callbacks
form a duplicate-free list (each destroyable entry occurs exactly once in
the pool). -/
theorem clean_destroyed_nodup (ext : Nat → Nat) (pool : List Nat) :
    (clean_destroyed ext pool).Nodup := by
  rw [clean_destroyed_eq, List.nodup_iff_count_le_one]
  intro a
  by_cases hda : destroyable ext pool a = true
  · have hfc : (pool.filter (destroyable ext pool)).count a = pool.count a :=
      List.count_filter hda
    have h1 : pool.count a = 1 := by
      unfold destroyable at hda
      simp only [Bool.and_eq_true, beq_iff_eq] at hda
      exact hda.1
    omega
  · have hfc : (pool.filter (destroyable ext pool)).count a = 0 :=
      List.count_eq_zero.mpr (fun hm => hda (List.mem_filter.mp hm).2)
    omega

/-- A destroy callback only ever fires on a pooled, destroyable entry. -/
theorem mem_clean_destroyed (ext : Nat → Nat) (pool : List Nat) (x : Nat)
    (h : x ∈ clean_destroyed ext pool) :
    x ∈ pool ∧ destroyable ext pool x = true := by
  rw [clean_destroyed_eq] at h
  exact ⟨(List.mem_filter.mp h).1, (List.mem_filter.mp h).2⟩

/-- The fresh manager satisfies the destroy-log invariant. -/
theorem manager_inv_init : ManagerInv MState.init := by
  constructor
  · simp [MState.init]
  · intro x hx
    simp [MState.init] at hx

/-- Every valid operation preserves the destroy-log invariant. -/
theorem manager_inv_step (s : MState) (op : Op)
    (h : valid_op s op = true) (hi : ManagerInv s) : ManagerInv (step s op) := by
  obtain ⟨hnd, hall⟩ := hi
  cases op with
  | make i =>
    simp only [valid_op, Bool.and_eq_true, decide_eq_true_eq, beq_iff_eq] at h
    obtain ⟨⟨hcnt, hext⟩, hmem⟩ := h
    refine ⟨hnd, ?_⟩
    intro x hx
    simp only [step] at hx ⊢
    have hxi : x ≠ i := fun he => hmem (he ▸ hx)
    obtain ⟨hc0, he0⟩ := hall x hx
    constructor
    · rw [List.count_append, hc0]
      simp [List.count_cons, Ne.symm hxi]
    · rw [Function.update_noteq hxi]
      exact he0
  | ref i =>
    simp only [valid_op, decide_eq_true_eq] at h
    refine ⟨hnd, ?_⟩
    intro x hx
    simp only [step] at hx ⊢
    obtain ⟨hc0, he0⟩ := hall x hx
    have hxi : x ≠ i := by
      intro he
      rw [he] at he0
      omega
    exact ⟨hc0, by rw [Function.update_noteq hxi]; exact he0⟩
  | drop i =>
    simp only [valid_op, decide_eq_true_eq] at h
    refine ⟨hnd, ?_⟩
    intro x hx
    simp only [step] at hx ⊢
    obtain ⟨hc0, he0⟩ := hall x hx
    have hxi : x ≠ i := by
      intro he
      rw [he] at he0
      omega
    exact ⟨hc0, by rw [Function.update_noteq hxi]; exact he0⟩
  | sweep =>
    constructor
    · show (s.destroyed ++ clean_destroyed s.ext s.pool).Nodup
      rw [List.nodup_append]
      refine ⟨hnd, clean_destroyed_nodup _ _, ?_⟩
      intro a ha hb
      obtain ⟨hc0, _⟩ := hall a ha
      have hmem := (mem_clean_destroyed _ _ _ hb).1
      have := List.count_pos_iff.mpr hmem
      omega
    · intro x hx
      simp only [step] at hx ⊢
      rcases List.mem_append.mp hx with hold | hnew
      · obtain ⟨hc0, he0⟩ := hall x hold
        refine ⟨?_, he0⟩
        rw [count_clean_pool]
        split_ifs <;> omega
      · obtain ⟨hmem, hdx⟩ := mem_clean_destroyed _ _ _ hnew
        have he0 : s.ext x = 0 := by
          unfold destroyable at hdx
          simp only [Bool.and_eq_true, beq_iff_eq] at hdx
          exact hdx.2
        refine ⟨?_, he0⟩
        rw [count_clean_pool, if_pos hdx]

/-- The invariant holds after any valid interleaving. -/
theorem manager_inv_run (s : MState) (ops : List Op)
    (h : valid_seq s ops = true) (hi : ManagerInv s) : ManagerInv (run s ops) := by
  induction ops generalizing s with
  | nil => exact hi
  | cons op ops ih =>
    simp only [valid_seq, Bool.and_eq_true] at h
    exact ih (step s op) h.2 (manager_inv_step s op h.1 hi)

/-- On pool members, sole-reference destroyability is the same as having
total reference count exactly 1. -/
theorem filter_destroyable_eq_refCount (s : MState) :
    s.pool.filter (destroyable s.ext s.pool)
      = s.pool.filter (fun x => refCount s x == 1) := by
  apply List.filter_congr
  intro x hx
  have hpos : 0 < s.pool.count x := List.count_pos_iff.mpr hx
  unfold destroyable refCount
  rw [Bool.eq_iff_iff]
  simp only [Bool.and_eq_true, beq_iff_eq]
  omega

/-- C1: along every valid interleaving of resource creation, referencing,
handle drops and sweeps, (1) no destroy callback ever fires twice for the
same resource; (2) only a sweep fires destroy callbacks; (3) a sweep
fires them exactly on the pooled entries whose reference count is 1, in
pool order; (4) those entries are removed from the pool; and (5) every
entry with any other reference count keeps its exact pool multiplicity
(externally referenced entries are untouched). -/
theorem handle_destroy_exactly_once (ops : List Op)
    (h : valid_seq MState.init ops = true) :
    (run MState.init ops).destroyed.Nodup ∧
    (∀ i : Nat,
      (step (run MState.init ops) (Op.make i)).destroyed
          = (run MState.init ops).destroyed ∧
      (step (run MState.init ops) (Op.ref i)).destroyed
          = (run MState.init ops).destroyed ∧
      (step (run MState.init ops) (Op.drop i)).destroyed
          = (run MState.init ops).destroyed) ∧
    (step (run MState.init ops) Op.sweep).destroyed
      = (run MState.init ops).destroyed
        ++ (run MState.init ops).pool.filter
            (fun x => refCount (run MState.init ops) x == 1) ∧
    (∀ x : Nat, refCount (run MState.init ops) x = 1 →
      x ∉ (step (run MState.init ops) Op.sweep).pool) ∧
    (∀ x : Nat, refCount (run MState.init ops) x ≠ 1 →
      ((step (run MState.init ops) Op.sweep).pool).count x
        = (run MState.init ops).pool.count x) := by
  set s := run MState.init ops with hs
  have hinv := manager_inv_run MState.init ops h manager_inv_init
  refine ⟨hinv.1, ?_, ?_, ?_, ?_⟩
  · intro i
    exact ⟨rfl, rfl, rfl⟩
  · show s.destroyed ++ clean_destroyed s.ext s.pool = _
    rw [clean_destroyed_eq, filter_destroyable_eq_refCount]
  · intro x hrc
    show x ∉ clean_pool s.ext s.pool
    rw [← List.count_eq_zero, count_clean_pool]
    by_cases hdx : destroyable s.ext s.pool x = true
    · rw [if_pos hdx]
    · rw [if_neg hdx]
      unfold destroyable at hdx
      simp only [Bool.and_eq_true, beq_iff_eq] at hdx
      unfold refCount at hrc
      omega
  · intro x hrc
    show (clean_pool s.ext s.pool).count x = s.pool.count x
    rw [count_clean_pool]
    have hdx : ¬ destroyable s.ext s.pool x = true := by
      unfold destroyable
      simp only [Bool.and_eq_true, beq_iff_eq]
      unfold refCount at hrc
      omega
    rw [if_neg hdx]

/-- Witness for C1 at a concrete interleaving: two resources are created,
one is referenced twice and dropped twice; the sweeps fire a destroy
callback at most once per resource. -/
theorem handle_destroy_exactly_once_witness :
    valid_seq MState.init
      [Op.make 0, Op.make 1, Op.ref 0, Op.sweep, Op.drop 0, Op.drop 0, Op.sweep]
        = true ∧
    (run MState.init
      [Op.make 0, Op.make 1, Op.ref 0, Op.sweep, Op.drop 0, Op.drop 0, Op.sweep]
        ).destroyed.Nodup :=
  ⟨by decide, (handle_destroy_exactly_once _ (by decide)).1⟩

/-! ## State cache theorems -/

/-- A `reset_state` call always leaves the shadow state with the VAO
marked bound, the index buffer known to be 0, and the viewport/scissor
counts untouched. -/
theorem reset_state_fst (caps : PrivateCaps) (vao : Nat) (s : State) :
    (reset_state caps vao s).1 = ⟨true, some 0, s.num_viewports, s.num_scissors⟩ := by
  rcases s with ⟨v, ib, nv, ns⟩
  cases v <;> rcases ib with _ | (_ | n) <;> rfl

/-- Had a shadow state with a positive recorded viewport count been
reachable, a second back-to-back `reset_state` would re-issue the
viewport neutral-reset (`reset_state` never clears the recorded counts);
the theorem for C3 below shows no such state is ever reached. -/
theorem reset_state_twice_positive_count :
    (reset_state ⟨true, true, true⟩ 7
        (reset_state ⟨true, true, true⟩ 7 ⟨false, none, 1, 0⟩).1).2
      = [NativeCall.viewport, NativeCall.depthRange] := by
  rfl

/-- When the starting shadow state records no active viewports and no
active scissors, a second `reset_state` with no intervening `process`
issues no native calls. -/
theorem reset_state_twice_noop (caps : PrivateCaps) (vao : Nat) (s : State)
    (hv : s.num_viewports = 0) (hs : s.num_scissors = 0) :
    (reset_state caps vao (reset_state caps vao s).1).2 = [] := by
  rw [reset_state_fst, hv, hs]
  rfl

/-- `process` never writes the recorded viewport/scissor counts (the
`SetViewports` / `SetScissors` arms update no state). -/
theorem process_preserves_counts (f : Features) (s : State) (cmd : Command) :
    (process f s cmd).1.num_viewports = s.num_viewports ∧
    (process f s cmd).1.num_scissors = s.num_scissors := by
  cases cmd <;> exact ⟨rfl, rfl⟩

/-- Every reachable shadow state records zero viewports and zero
scissors: the counts start at 0 and no operation ever writes them. -/
theorem glRun_counts (ops : List GlOp) :
    (glRun State.new ops).num_viewports = 0 ∧
    (glRun State.new ops).num_scissors = 0 := by
  suffices h : ∀ s : State, s.num_viewports = 0 → s.num_scissors = 0 →
      (glRun s ops).num_viewports = 0 ∧ (glRun s ops).num_scissors = 0 by
    exact h State.new rfl rfl
  induction ops with
  | nil => exact fun s hv hs => ⟨hv, hs⟩
  | cons op ops ih =>
    intro s hv hs
    cases op with
    | procCmd f cmd =>
      apply ih
      · show (process f s cmd).1.num_viewports = 0
        rw [(process_preserves_counts f s cmd).1]
        exact hv
      · show (process f s cmd).1.num_scissors = 0
        rw [(process_preserves_counts f s cmd).2]
        exact hs
    | reset caps vao =>
      apply ih
      · show (reset_state caps vao s).1.num_viewports = 0
        rw [reset_state_fst]
        exact hv
      · show (reset_state caps vao s).1.num_scissors = 0
        rw [reset_state_fst]
        exact hs
    | flush =>
      exact ih (State.flush s) hv hs

/-- C3: from every reachable shadow state of the state cache (every state
producible from `State::new` by any history of `process`, `reset_state`
and cache invalidation), calling `reset_state` twice with no intervening
`process` issues no native driver calls on the second call. -/
theorem reset_state_twice_no_calls (ops : List GlOp) (caps : PrivateCaps) (vao : Nat) :
    (reset_state caps vao (reset_state caps vao (glRun State.new ops)).1).2 = [] :=
  reset_state_twice_noop caps vao (glRun State.new ops)
    (glRun_counts ops).1 (glRun_counts ops).2

/-- C10: invalidating the cache (`State::flush`, as done by `with_gl`
after user driver calls) marks the VAO unbound and the index buffer
unknown but preserves the recorded viewport/scissor counts; the following
`reset_state` therefore re-binds the default VAO, re-binds "no index
buffer", and drives its viewport/scissor resetting by the counts from
before the invalidation (which it again preserves). -/
theorem flush_then_reset (caps : PrivateCaps) (vao : Nat) (s : State)
    (h : caps.array_buffer_supported = true) :
    (State.flush s).vao = false ∧
    (State.flush s).index_buffer = none ∧
    (State.flush s).num_viewports = s.num_viewports ∧
    (State.flush s).num_scissors = s.num_scissors ∧
    (reset_state caps vao (State.flush s)).2
      = NativeCall.bindVertexArray vao
          :: NativeCall.bindBuffer glELEMENT_ARRAY_BUFFER 0
          :: (viewportResetCalls s.num_viewports ++ scissorResetCalls s.num_scissors) ∧
    (reset_state caps vao (State.flush s)).1.num_viewports = s.num_viewports ∧
    (reset_state caps vao (State.flush s)).1.num_scissors = s.num_scissors := by
  rcases s with ⟨v, ib, nv, ns⟩
  refine ⟨rfl, rfl, rfl, rfl, ?_, ?_, ?_⟩
  · show (reset_state caps vao ⟨false, none, nv, ns⟩).2 = _
    simp only [reset_state, h]
    rfl
  · rw [reset_state_fst]
    rfl
  · rw [reset_state_fst]
    rfl

/-- Witness for C10 at a concrete state with two recorded viewports. -/
theorem flush_then_reset_witness :
    ((⟨true, true, true⟩ : PrivateCaps).array_buffer_supported = true) ∧
    (reset_state ⟨true, true, true⟩ 7 (State.flush ⟨true, some 5, 2, 1⟩)).2
      = NativeCall.bindVertexArray 7
          :: NativeCall.bindBuffer glELEMENT_ARRAY_BUFFER 0
          :: (viewportResetCalls (⟨true, some 5, 2, 1⟩ : State).num_viewports
              ++ scissorResetCalls (⟨true, some 5, 2, 1⟩ : State).num_scissors) :=
  ⟨rfl, (flush_then_reset ⟨true, true, true⟩ 7 ⟨true, some 5, 2, 1⟩ rfl).2.2.2.2.1⟩

/-- C4, against the source: the native call-path selection is as claimed
(single-entry call for 1 entry, array call for 4), but the shadow state's
recorded counts are NOT updated — `process` never writes `num_viewports`
or `num_scissors`, so after processing a 1-entry `SetViewports` the cache
still records 0, contradicting the claim (and leaving the viewport reset
in `reset_state` unreachable). -/
theorem set_viewports_cache_not_updated :
    (process ⟨true, true, true, true, true, true⟩ State.new (Command.setViewports 1)).2.1
        = [NativeCall.viewport, NativeCall.depthRange] ∧
    (process ⟨true, true, true, true, true, true⟩ State.new (Command.setViewports 4)).2.1
        = [NativeCall.viewportArrayv 4, NativeCall.depthRangeArrayv 4] ∧
    (process ⟨true, true, true, true, true, true⟩ State.new (Command.setScissors 1)).2.1
        = [NativeCall.scissor] ∧
    (process ⟨true, true, true, true, true, true⟩ State.new (Command.setScissors 4)).2.1
        = [NativeCall.scissorArrayv 4] ∧
    (process ⟨true, true, true, true, true, true⟩ State.new (Command.setViewports 1)).1.num_viewports
        = 0 ∧
    (process ⟨true, true, true, true, true, true⟩ State.new (Command.setScissors 1)).1.num_scissors
        = 0 := by
  decide

/-! ## Draw fallback theorems -/

/-- C5: a non-indexed instanced draw under features
`{draw_instanced = true, draw_instanced_base = false}` with a nonzero
requested base instance logs the unsupported-base error and issues no
native draw call. -/
theorem draw_nonzero_base_instance_rejected (f : Features)
    (primitive start count num base : Nat)
    (h1 : f.draw_instanced = true) (h2 : f.draw_instanced_base = false)
    (h3 : base ≠ 0) :
    process_draw f primitive start count (some (num, base))
      = ([], [LogError.instancedBaseNotSupported]) := by
  simp [process_draw, h1, h2, h3]

/-- Witness for C5 with a requested base instance of 5. -/
theorem draw_nonzero_base_instance_rejected_witness :
    ((⟨true, false, false, false, false, false⟩ : Features).draw_instanced = true ∧
     (⟨true, false, false, false, false, false⟩ : Features).draw_instanced_base = false ∧
     (5 : Nat) ≠ 0) ∧
    process_draw ⟨true, false, false, false, false, false⟩ 4 0 3 (some (2, 5))
      = ([], [LogError.instancedBaseNotSupported]) :=
  ⟨⟨rfl, rfl, by decide⟩,
   draw_nonzero_base_instance_rejected ⟨true, false, false, false, false, false⟩
     4 0 3 2 5 rfl rfl (by decide)⟩

/-- C6: the `DrawIndexed` arm realises exactly the specification's strict
fallback order — it issues the call of the first entry point, in order
{instanced+base-vertex+base-instance, base-vertex only, plain instanced}
(instanced) resp. {base-vertex, plain} (non-instanced), that the feature
table supports and that honors the requested base vertex and base
instance; when none qualifies it issues no draw call, and it logs an
error exactly when it issues no call (a nonzero base is never silently
dropped). -/
theorem draw_indexed_fallback (f : Features)
    (primitive index_type start count num base_instance : Nat) (base_vertex : Int) :
    ((process_draw_indexed f primitive index_type start count base_vertex
        (some (num, base_instance))).1
      = ((selectIndexedEntry f true base_vertex base_instance).map
          (entryCall primitive index_type start count num base_vertex base_instance)).toList) ∧
    ((process_draw_indexed f primitive index_type start count base_vertex none).1
      = ((selectIndexedEntry f false base_vertex 0).map
          (entryCall primitive index_type start count num base_vertex 0)).toList) ∧
    (∀ inst : Option (Nat × Nat),
      ((process_draw_indexed f primitive index_type start count base_vertex inst).1 = []
        ↔ (process_draw_indexed f primitive index_type start count base_vertex inst).2 ≠ [])) := by
  rcases f with ⟨f1, f2, f3, f4, f5, f6⟩
  refine ⟨?_, ?_, ?_⟩
  · cases f3 <;> cases f4 <;> cases f5 <;>
      by_cases hbi : base_instance = 0 <;> by_cases hbv : base_vertex = 0 <;>
        simp_all [process_draw_indexed, selectIndexedEntry, fallbackOrder,
                  entrySupported, entryHonors, entryCall]
  · cases f6 <;> by_cases hbv : base_vertex = 0 <;>
      simp_all [process_draw_indexed, selectIndexedEntry, fallbackOrder,
                entrySupported, entryHonors, entryCall]
  · intro inst
    rcases inst with _ | ⟨n, bi⟩
    · cases f6 <;> by_cases hbv : base_vertex = 0 <;>
        simp_all [process_draw_indexed]
    · cases f3 <;> cases f4 <;> cases f5 <;>
        by_cases hbi : bi = 0 <;> by_cases hbv : base_vertex = 0 <;>
          simp_all [process_draw_indexed]

/-! ## Hardware error checking -/

/-- Decoding yields no-error exactly on the `NO_ERROR` code. -/
theorem from_error_code_noError_iff (code : Nat) :
    from_error_code code = GlError.noError ↔ code = glNO_ERROR := by
  unfold from_error_code
  split_ifs <;> simp_all

/-- C7: with debug assertions off, the post-command check always reports
success; with them on, it succeeds exactly on the no-error code and
otherwise aborts the submission surfacing the decoded error kind together
with the offending command; every code without a dedicated decoding
decodes to the unknown-error kind. -/
theorem process_check_aborts (f : Features) (s : State) (cmd : Command) (code : Nat) :
    (process_checked false f s cmd code = Except.ok (process f s cmd)) ∧
    (process_checked true f s cmd code = Except.ok (process f s cmd)
      ↔ code = glNO_ERROR) ∧
    (process_checked true f s cmd code
        = Except.error (from_error_code code, cmd)
      ↔ code ≠ glNO_ERROR) ∧
    (from_error_code code = GlError.unknownError ↔ code ∉ knownErrorCodes) := by
  have hch : process_checked true f s cmd code
      = if from_error_code code = GlError.noError then Except.ok (process f s cmd)
        else Except.error (from_error_code code, cmd) := by
    unfold process_checked share_check
    by_cases hc : from_error_code code = GlError.noError <;> simp [hc]
  refine ⟨rfl, ?_, ?_, ?_⟩
  · rw [hch, ← from_error_code_noError_iff]
    by_cases hc : from_error_code code = GlError.noError <;> simp [hc]
  · rw [hch]
    by_cases hc : from_error_code code = GlError.noError
    · have hcode : code = glNO_ERROR := (from_error_code_noError_iff code).mp hc
      simp [hc, hcode]
      decide
    · have hcode : code ≠ glNO_ERROR :=
        fun he => hc ((from_error_code_noError_iff code).mpr he)
      simp [hc, hcode]
  · unfold from_error_code knownErrorCodes
    split_ifs <;> simp_all

/-! ## Soft resource cap -/

/-- Once the cap is disabled, no later `pin_submitted_resources` call ever
logs the over-cap error again, regardless of the count. -/
theorem run_pins_none (n : Nat) (ms : List Nat) :
    run_pins ⟨none, n⟩ ms = ms.map (fun _ => false) := by
  induction ms generalizing n with
  | nil => rfl
  | cons m ms ih =>
    simp only [run_pins, pin_submitted_resources, List.map_cons]
    rw [ih]

/-- A run from an armed cap logs exactly per the first-exceed rule. -/
theorem run_pins_eq_firstExceedLogs (c n0 : Nat) (ms : List Nat) :
    run_pins ⟨some c, n0⟩ ms = firstExceedLogs c n0 ms := by
  induction ms generalizing n0 with
  | nil => rfl
  | cons m ms ih =>
    simp only [run_pins, pin_submitted_resources, firstExceedLogs]
    by_cases hgt : n0 + m > c
    · rw [if_pos hgt, if_pos hgt]
      simp only []
      rw [run_pins_none]
    · rw [if_neg hgt, if_neg hgt]
      simp only []
      rw [ih]

/-- The first-exceed rule logs at most once. -/
theorem firstExceedLogs_count (c n0 : Nat) (ms : List Nat) :
    (firstExceedLogs c n0 ms).count true ≤ 1 := by
  induction ms generalizing n0 with
  | nil => simp [firstExceedLogs]
  | cons m ms ih =>
    simp only [firstExceedLogs]
    by_cases hgt : n0 + m > c
    · rw [if_pos hgt]
      have hz : (List.replicate ms.length false).count true = 0 := by
        simp [List.count_replicate]
      simp [List.count_cons, hz]
    · rw [if_neg hgt]
      have := ih (n0 + m)
      simp [List.count_cons]
      omega

/-- C8: across every sequence of `pin_submitted_resources` calls on one
queue starting with an armed cap `c`, the over-cap error is logged
exactly at the first call whose running count exceeds `c` (which also
permanently disables the check), hence at most once over the whole
sequence. -/
theorem pin_overcap_logged_once (c n0 : Nat) (ms : List Nat) :
    run_pins ⟨some c, n0⟩ ms = firstExceedLogs c n0 ms ∧
    (run_pins ⟨some c, n0⟩ ms).count true ≤ 1 := by
  refine ⟨run_pins_eq_firstExceedLogs c n0 ms, ?_⟩
  rw [run_pins_eq_firstExceedLogs]
  exact firstExceedLogs_count c n0 ms

/-! ## Submission pipeline -/

/-- All flush/unmap events of the pre-submit phase sit at phase rank 0. -/
theorem rank_before_submit (caps : PrivateCaps) (acc : List MappedAccess) :
    ∀ e ∈ before_submit caps acc, eventRank e = 0 := by
  intro e he
  unfold before_submit at he
  split_ifs at he
  · rcases List.mem_filterMap.mp he with ⟨a, _, hfa⟩
    by_cases hfl : a.flushed = true
    · rw [hfl] at hfa
      simp at hfa
    · rw [Bool.not_eq_true] at hfl
      rw [hfl] at hfa
      simp at hfa
      rw [← hfa]
      rfl
  · rcases List.mem_map.mp he with ⟨a, _, hfa⟩
    rw [← hfa]
    rfl

/-- All replay events (state resets and command processing) sit at phase
rank 1. -/
theorem rank_command_events (cbs : List (List Command)) :
    ∀ e ∈ command_events cbs, eventRank e = 1 := by
  intro e he
  unfold command_events at he
  rcases List.mem_flatMap.mp he with ⟨cb, _, hcb⟩
  rcases hcb with _ | hcb
  · rfl
  · rcases List.mem_map.mp (by assumption) with ⟨c, _, hc⟩
    rw [← hc]
    rfl

/-- Barrier and fence events sit at phase ranks 2 and 3. -/
theorem rank_after_submit (caps : PrivateCaps) (acc : List MappedAccess) :
    ∀ e ∈ after_submit caps acc, 2 ≤ eventRank e ∧ eventRank e ≤ 3 := by
  intro e he
  unfold after_submit at he
  split_ifs at he with h1 h2
  · simp at he
    rcases he with he | he <;> subst he <;> exact ⟨by decide, by decide⟩
  · simp at he
    subst he
    exact ⟨by decide, by decide⟩
  · simp at he

/-- The external-fence re-signal sits at phase rank 4. -/
theorem rank_signal_fence (caps : PrivateCaps) (ef : Bool) :
    ∀ e ∈ signal_fence_events caps ef, eventRank e = 4 := by
  intro e he
  unfold signal_fence_events at he
  split_ifs at he
  · simp at he
    subst he
    rfl
  · simp at he

/-- A list whose members all sit at one phase rank contains no event of a
different rank. -/
theorem count_eq_zero_of_rank (l : List SubmitEvent) (r : Nat)
    (h : ∀ e ∈ l, eventRank e = r) (e0 : SubmitEvent) (hne : eventRank e0 ≠ r) :
    l.count e0 = 0 :=
  List.count_eq_zero.mpr (fun hm => hne (h e0 hm))

/-- Fence placement count of the post-submit phase. -/
theorem after_submit_count_fence (caps : PrivateCaps) (acc : List MappedAccess) :
    (after_submit caps acc).count SubmitEvent.placeFence
      = if caps.buffer_storage_supported && (anyRead acc || anyWrite acc) then 1 else 0 := by
  unfold after_submit
  cases hb : caps.buffer_storage_supported <;> cases hw : anyWrite acc <;>
    cases hr : anyRead acc <;> decide

/-- Barrier count of the post-submit phase: one exactly when persistent
mappings are supported and a mapped write occurred. -/
theorem after_submit_count_barrier (caps : PrivateCaps) (acc : List MappedAccess) :
    (after_submit caps acc).count SubmitEvent.memoryBarrier
      = if caps.buffer_storage_supported && anyWrite acc then 1 else 0 := by
  unfold after_submit
  cases hb : caps.buffer_storage_supported <;> cases hw : anyWrite acc <;>
    cases hr : anyRead acc <;> decide

/-- Every `submit_raw` trace is monotone in the phase rank: flush/unmap
events come before every command, commands before the barrier, the
barrier before the fence, and the external re-signal last. -/
theorem submit_raw_sorted (caps : PrivateCaps) (acc : List MappedAccess)
    (cbs : List (List Command)) (ef : Bool) :
    (submit_raw caps acc cbs ef).Pairwise (fun a b => eventRank a ≤ eventRank b) := by
  unfold submit_raw
  rw [List.append_assoc, List.append_assoc]
  apply List.pairwise_append.mpr
  refine ⟨?_, ?_, ?_⟩
  · exact List.pairwise_of_forall_mem_list (fun a ha b hb => by
      rw [rank_before_submit caps acc a ha]
      exact Nat.zero_le _)
  · apply List.pairwise_append.mpr
    refine ⟨?_, ?_, ?_⟩
    · exact List.pairwise_of_forall_mem_list (fun a ha b hb => by
        have h1 := rank_command_events cbs a ha
        have h2 := rank_command_events cbs b hb
        omega)
    · apply List.pairwise_append.mpr
      refine ⟨?_, ?_, ?_⟩
      · unfold after_submit
        split_ifs <;> decide
      · unfold signal_fence_events
        split_ifs <;> decide
      · intro a ha b hb
        have h1 := rank_after_submit caps acc a ha
        have h2 := rank_signal_fence caps ef b hb
        omega
    · intro a ha b hb
      have h1 := rank_command_events cbs a ha
      rcases List.mem_append.mp hb with h | h
      · have h2 := rank_after_submit caps acc b h
        omega
      · have h2 := rank_signal_fence caps ef b h
        omega
  · intro a ha b hb
    rw [rank_before_submit caps acc a ha]
    exact Nat.zero_le _

/-- Counterexample to C2 as stated: on a backend without persistent
mappings (`buffer_storage_supported = false`), a submission whose access
guard contains a mapped write places neither a memory barrier nor a
fence — `after_submit` is entirely gated on persistent-mapping support,
so "a memory barrier is issued iff a write occurred, followed by one
fence" fails there. -/
theorem submit_raw_fence_counterexample :
    anyWrite [(⟨0, false, true, false⟩ : MappedAccess)] = true ∧
    (submit_raw ⟨true, false, true⟩ [⟨0, false, true, false⟩] [] false).count
        SubmitEvent.placeFence = 0 ∧
    (submit_raw ⟨true, false, true⟩ [⟨0, false, true, false⟩] [] false).count
        SubmitEvent.memoryBarrier = 0 := by
  decide

/-- C2 (amended): every `submit_raw` trace is ordered flush/unmap →
replay → barrier → fence → external re-signal.  With persistent-mapping
support, every not-yet-flushed mapped read is flushed before any command
is processed, and — only then — one fence is placed iff any mapping was
accessed, preceded by a memory barrier iff a mapped write occurred;
without it, every mapped access is unmapped before any command and no
barrier or fence is placed.  The caller's external fence is re-signaled
last, exactly when sync objects are supported. -/
theorem submit_raw_pipeline (caps : PrivateCaps) (acc : List MappedAccess)
    (cbs : List (List Command)) (ef : Bool) :
    (submit_raw caps acc cbs ef).Pairwise (fun a b => eventRank a ≤ eventRank b) ∧
    (caps.buffer_storage_supported = true →
      (submit_raw caps acc cbs ef).count SubmitEvent.placeFence
          = (if anyRead acc || anyWrite acc then 1 else 0) ∧
      (submit_raw caps acc cbs ef).count SubmitEvent.memoryBarrier
          = (if anyWrite acc then 1 else 0) ∧
      (∀ a ∈ acc, a.read = true → a.flushed = false →
        SubmitEvent.flushMapping a.buffer ∈ submit_raw caps acc cbs ef)) ∧
    (caps.buffer_storage_supported = false →
      (∀ a ∈ acc, SubmitEvent.unmapMapping a.buffer ∈ submit_raw caps acc cbs ef) ∧
      (submit_raw caps acc cbs ef).count SubmitEvent.placeFence = 0 ∧
      (submit_raw caps acc cbs ef).count SubmitEvent.memoryBarrier = 0) ∧
    (SubmitEvent.signalExternalFence ∈ submit_raw caps acc cbs ef
      ↔ ef = true ∧ caps.sync_supported = true) ∧
    (ef = true → caps.sync_supported = true →
      ∃ t, submit_raw caps acc cbs ef = t ++ [SubmitEvent.signalExternalFence]) := by
  have hcf : (submit_raw caps acc cbs ef).count SubmitEvent.placeFence
      = (after_submit caps acc).count SubmitEvent.placeFence := by
    unfold submit_raw
    rw [List.count_append, List.count_append, List.count_append]
    rw [count_eq_zero_of_rank _ 0 (rank_before_submit caps acc) _ (by decide),
        count_eq_zero_of_rank _ 1 (rank_command_events cbs) _ (by decide),
        count_eq_zero_of_rank _ 4 (rank_signal_fence caps ef) _ (by decide)]
    omega
  have hcb : (submit_raw caps acc cbs ef).count SubmitEvent.memoryBarrier
      = (after_submit caps acc).count SubmitEvent.memoryBarrier := by
    unfold submit_raw
    rw [List.count_append, List.count_append, List.count_append]
    rw [count_eq_zero_of_rank _ 0 (rank_before_submit caps acc) _ (by decide),
        count_eq_zero_of_rank _ 1 (rank_command_events cbs) _ (by decide),
        count_eq_zero_of_rank _ 4 (rank_signal_fence caps ef) _ (by decide)]
    omega
  refine ⟨submit_raw_sorted caps acc cbs ef, ?_, ?_, ?_, ?_⟩
  · intro hbss
    refine ⟨?_, ?_, ?_⟩
    · rw [hcf, after_submit_count_fence, hbss]
      simp
    · rw [hcb, after_submit_count_barrier, hbss]
      simp
    · intro a ha hr hf
      unfold submit_raw
      apply List.mem_append.mpr
      left
      apply List.mem_append.mpr
      left
      apply List.mem_append.mpr
      left
      unfold before_submit
      rw [if_pos hbss]
      apply List.mem_filterMap.mpr
      refine ⟨a, List.mem_filter.mpr ⟨ha, hr⟩, ?_⟩
      rw [hf]
      rfl
  · intro hbss
    refine ⟨?_, ?_, ?_⟩
    · intro a ha
      unfold submit_raw
      apply List.mem_append.mpr
      left
      apply List.mem_append.mpr
      left
      apply List.mem_append.mpr
      left
      unfold before_submit
      rw [if_neg (by simp [hbss])]
      exact List.mem_map.mpr ⟨a, ha, rfl⟩
    · rw [hcf, after_submit_count_fence, hbss]
      simp
    · rw [hcb, after_submit_count_barrier, hbss]
      simp
  · constructor
    · intro hm
      unfold submit_raw at hm
      rcases List.mem_append.mp hm with hm | hm
      · rcases List.mem_append.mp hm with hm | hm
        · rcases List.mem_append.mp hm with hm | hm
          · have := rank_before_submit caps acc _ hm
            simp [eventRank] at this
          · have := rank_command_events cbs _ hm
            simp [eventRank] at this
        · have := rank_after_submit caps acc _ hm
          simp [eventRank] at this
      · unfold signal_fence_events at hm
        split_ifs at hm with hc
        · rw [Bool.and_eq_true] at hc
          exact hc
        · simp at hm
    · rintro ⟨hef, hsync⟩
      unfold submit_raw signal_fence_events
      rw [hef, hsync]
      simp
  · intro hef hsync
    refine ⟨before_submit caps acc ++ command_events cbs ++ after_submit caps acc, ?_⟩
    unfold submit_raw signal_fence_events
    rw [hef, hsync]
    rfl

/-- Witness for C2 (amended) on a persistent-mapping backend with one
written mapping: exactly one fence is placed. -/
theorem submit_raw_pipeline_witness :
    ((⟨true, true, true⟩ : PrivateCaps).buffer_storage_supported = true) ∧
    (submit_raw ⟨true, true, true⟩ [⟨0, true, true, false⟩]
        [[Command.dispatch 1 1 1]] true).count SubmitEvent.placeFence
      = (if anyRead [(⟨0, true, true, false⟩ : MappedAccess)]
            || anyWrite [(⟨0, true, true, false⟩ : MappedAccess)] then 1 else 0) :=
  ⟨rfl,
   ((submit_raw_pipeline ⟨true, true, true⟩ [⟨0, true, true, false⟩]
      [[Command.dispatch 1 1 1]] true).2.1 rfl).1⟩
